import Mathlib

/-!
Verification of the text-classification data pipeline in `util.py`
(vocabulary construction, line encoding, n-gram hashing, batch iteration).

Python dicts are modelled as insertion-ordered association lists
`List (String × Nat)`; Python exceptions as `Except String`; the external
sub-word tokenizer as function parameters.
-/

/-- Reserved unknown-token marker, `UNK = '<UNK>'` in the source. -/
def UNK : String := "<UNK>"

/-- Reserved padding marker, `PAD = '<PAD>'` in the source. -/
def PAD : String := "<PAD>"

/-- Reserved classification marker, `CLS = '[CLS]'` in the source. -/
def CLS : String := "[CLS]"

/-- Python `str.strip()`: drop whitespace characters from both ends
(modelled with the ASCII whitespace set, which covers every corpus character
the claims exercise). -/
def pyStrip (s : String) : String :=
  String.mk (((s.data.dropWhile Char.isWhitespace).reverse.dropWhile
    Char.isWhitespace).reverse)

/-- Helper for `str.split(sep)` with a one-character separator, on character
lists: splitting an empty string gives one empty field, and every separator
occurrence starts a new field. -/
def splitChars (sep : Char) : List Char → List (List Char)
  | [] => [[]]
  | c :: rest =>
    let r := splitChars sep rest
    if c = sep then [] :: r
    else
      match r with
      | [] => [[c]]
      | g :: gs => (c :: g) :: gs

/-- Python `s.split(sep)` for a one-character separator. -/
def pySplit (s : String) (sep : Char) : List String :=
  (splitChars sep s.data).map (fun cs => String.mk cs)

/-- Python `sorted(l, key=count, reverse=True)` is a stable descending sort by
count; a stable sort is extensionally unique, modelled here by insertion that
keeps earlier entries ahead of equal counts. -/
def insertByCount (p : String × Nat) : List (String × Nat) → List (String × Nat)
  | [] => [p]
  | q :: rest => if q.2 ≤ p.2 then p :: q :: rest else q :: insertByCount p rest

/-- Stable descending-by-count sort (see `insertByCount`). -/
def sortByCountDesc : List (String × Nat) → List (String × Nat)
  | [] => []
  | p :: rest => insertByCount p (sortByCountDesc rest)

/-- A Python `dict` from token strings to ids, as an insertion-ordered
association list (one entry per key). -/
abbrev Vocab := List (String × Nat)

/-- `d.get(k)` on a string-keyed dict: value of the first entry with key `k`. -/
def dictGet (d : Vocab) (k : String) : Option Nat :=
  (d.find? (fun p => p.1 = k)).map Prod.snd

/-- `k in d`: whether the dict has an entry with key `k`. -/
def dictHas (d : Vocab) (k : String) : Bool :=
  d.any (fun p => p.1 = k)

/-- `d[k] = v`: overwrite in place if the key exists (keeping its position,
as Python dicts do), otherwise append a new entry. -/
def dictSet (d : Vocab) (k : String) (v : Nat) : Vocab :=
  if dictHas d k then d.map (fun p => if p.1 = k then (k, v) else p)
  else d ++ [(k, v)]

/-- `vocab_dict[word] = vocab_dict.get(word, 0) + 1` from `build_vocab`:
increment the count in place, or insert the word with count 1. -/
def bumpCount (d : Vocab) (w : String) : Vocab :=
  if dictHas d w then d.map (fun p => if p.1 = w then (p.1, p.2 + 1) else p)
  else d ++ [(w, 1)]

/-- `line.split(chr(9))[0]`: the text before the first tab (the whole line
when no tab is present). -/
def firstField (s : String) : String :=
  match pySplit s '\t' with
  | [] => ""
  | c :: _ => c

/-- The counting loop of `build_vocab`: strip each line, skip blanks,
tokenize the text before the first tab and count token frequencies. -/
def countCorpus (lines : List String) (tokenizer : String → List String) : Vocab :=
  lines.foldl
    (fun d line0 =>
      let line := pyStrip line0
      if line = "" then d
      else (tokenizer (firstField line)).foldl bumpCount d)
    []

/-- `vocab_list` of `build_vocab`: keep entries with count ≥ `min_freq`,
sort by count descending (Python `sorted` with `reverse=True`, stable),
truncate to `max_size`. -/
def vocabList (lines : List String) (tokenizer : String → List String)
    (max_size min_freq : Nat) : Vocab :=
  (sortByCountDesc ((countCorpus lines tokenizer).filter
    (fun p => min_freq ≤ p.2))).take max_size

/-- The dict comprehension of `build_vocab`: word of rank `idx` maps to id `idx`. -/
def enumDict (l : Vocab) : Vocab :=
  l.enum.map (fun ip => (ip.2.1, ip.1))

/-- `build_vocab(file_path, tokenizer, max_size, min_freq)` over the file
contents given as a list of lines. After ranking the kept words it runs
`vocab_dict.update` with UNK at the pre-update size and PAD one above it. -/
def build_vocab (lines : List String) (tokenizer : String → List String)
    (max_size min_freq : Nat) : Vocab :=
  let vocab_dict := enumDict (vocabList lines tokenizer max_size min_freq)
  dictSet (dictSet vocab_dict UNK vocab_dict.length) PAD (vocab_dict.length + 1)

/-- An element of the `token` list in `build_dataset.load_dataset` after the
padding step: either a real token string, or the value `vocab.get(PAD)`
(an integer id, or Python `None` when PAD is absent) that line 80 of the
source appends in place of the padding marker string. -/
inductive Tok where
  | str (s : String)
  | padId (v : Option Nat)
deriving DecidableEq

/-- `vocab.get(word, vocab.get(UNK))` from the word-to-id loop: a string key
is looked up; an integer (or None) key never matches any string key of the
dict, so the default `vocab.get(UNK)` is returned for padded entries. -/
def tokLookup (v : Vocab) : Tok → Option Nat
  | Tok.str s =>
    match dictGet v s with
    | some i => some i
    | none => dictGet v UNK
  | Tok.padId _ => dictGet v UNK

/-- The token-to-ids body of `build_dataset.load_dataset` for one line, given
the tokenizer output `toks`: record the true length, pad (with the
`vocab.get(PAD)` value) or truncate to `pad_size` when it is non-zero, then
map every element through `vocab.get(word, vocab.get(UNK))`.
Returns `(words_line, seq_len)`. -/
def encodeTokens (v : Vocab) (pad_size : Nat) (toks : List String) :
    List (Option Nat) × Nat :=
  let token : List Tok := toks.map Tok.str
  let seq_len := toks.length
  let tp : List Tok × Nat :=
    if pad_size ≠ 0 then
      if toks.length < pad_size then
        (token ++ List.replicate (pad_size - toks.length) (Tok.padId (dictGet v PAD)),
         seq_len)
      else
        (token.take pad_size, pad_size)
    else (token, seq_len)
  (tp.1.map (tokLookup v), tp.2)

/-- Python `int(s)`: strip surrounding whitespace, optional sign, then a
non-empty run of decimal digits (modelled without underscore separators or
non-ASCII digits, which no claim exercises). `none` models `ValueError`. -/
def pyInt (s : String) : Option Int :=
  let t := pyStrip s
  let sd : Int × List Char :=
    match t.data with
    | '-' :: rest => (-1, rest)
    | '+' :: rest => (1, rest)
    | cs => (1, cs)
  if sd.2 ≠ [] ∧ sd.2.all Char.isDigit then
    some (sd.1 * ((sd.2.foldl (fun acc c => acc * 10 + (c.toNat - 48)) 0 : Nat) : Int))
  else none

/-- One encoded record of the generic path: `(words_line, int(label), seq_len)`.
Entries of `words_line` are `Option Nat` because `vocab.get` can yield None
when neither the word nor UNK is a key. -/
structure Rec where
  words_line : List (Option Nat)
  label : Int
  seq_len : Nat
deriving DecidableEq

/-- One loop iteration of `build_dataset.load_dataset`: strip the line, skip
it when blank (`ok none`), unpack `content, label = line.split(chr(9))`
(a `ValueError` unless exactly two fields), encode the tokens, and parse the
label with `int(label)` (a `ValueError` when it is not an integer). -/
def parseLine (tokenizer : String → List String) (v : Vocab) (pad_size : Nat)
    (line0 : String) : Except String (Option Rec) :=
  let line := pyStrip line0
  if line = "" then Except.ok none
  else
    match pySplit line '\t' with
    | [content, labelStr] =>
      let enc := encodeTokens v pad_size (tokenizer content)
      match pyInt labelStr with
      | some lab => Except.ok (some ⟨enc.1, lab, enc.2⟩)
      | none => Except.error ("ValueError: invalid literal for int")
    | _ => Except.error ("ValueError: unpack")

/-- `build_dataset.load_dataset` over the file contents (for the non-FastText
model families; the FastText branch appends the same three fields plus the
n-gram features modelled separately by `biGramHash`/`triGramHash`): the first
malformed line aborts the whole pass with its error. -/
def load_dataset (tokenizer : String → List String) (v : Vocab) (pad_size : Nat) :
    List String → Except String (List Rec)
  | [] => Except.ok []
  | l :: ls =>
    match parseLine tokenizer v pad_size l with
    | Except.error e => Except.error e
    | Except.ok none => load_dataset tokenizer v pad_size ls
    | Except.ok (some r) => (load_dataset tokenizer v pad_size ls).map (fun rs => r :: rs)

/-- `biGramHash(sequence, t, buckets)`: `t1 = sequence[t-1] if t-1 >= 0 else 0`,
result `(t1 * 14918087) % buckets`. `none` models an IndexError. -/
def biGramHash (sequence : List Int) (t : Int) (buckets : Int) : Option Int :=
  let t1 : Option Int := if 0 ≤ t - 1 then sequence[(t - 1).toNat]? else some 0
  t1.map (fun t1v => t1v * 14918087 % buckets)

/-- `triGramHash(sequence, t, buckets)`: like `biGramHash` with
`t2 = sequence[t-2] if t-2 >= 0 else 0`, result
`(t2 * 14918087 * 18408749 + t1 * 14918087) % buckets`. -/
def triGramHash (sequence : List Int) (t : Int) (buckets : Int) : Option Int :=
  let t1 : Option Int := if 0 ≤ t - 1 then sequence[(t - 1).toNat]? else some 0
  let t2 : Option Int := if 0 ≤ t - 2 then sequence[(t - 2).toNat]? else some 0
  match t1, t2 with
  | some t1v, some t2v => some ((t2v * 14918087 * 18408749 + t1v * 14918087) % buckets)
  | _, _ => none

/-- One encoded record of the sub-word path:
`(token_ids, int(label), seq_len, mask)`. -/
structure BertRec where
  token_ids : List Nat
  label : Int
  seq_len : Nat
  mask : List Nat
deriving DecidableEq

/-- The per-line body of `build_dataset_bert.load_dataset`, given the external
tokenizer output `toks` and the external `convert_tokens_to_ids` as the
function `convert`: prepend CLS, record the true length, convert to ids, then
pad ids with 0 and build the mask, or truncate ids and use an all-ones mask. -/
def bertEncodeLine (convert : List String → List Nat) (pad_size : Nat)
    (toks : List String) (label : Int) : BertRec :=
  let token := CLS :: toks
  let seq_len := token.length
  let mask : List Nat := []
  let token_ids := convert token
  if pad_size ≠ 0 then
    if token.length < pad_size then
      ⟨token_ids ++ List.replicate (pad_size - token.length) 0, label, seq_len,
       List.replicate token_ids.length 1 ++ List.replicate (pad_size - token.length) 0⟩
    else
      ⟨token_ids.take pad_size, label, seq_len, List.replicate pad_size 1⟩
  else ⟨token_ids, label, seq_len, mask⟩

/-- The mutable state of `DatasetIterater`: the stored dataset, the configured
batch size, the full-batch count `n_batches`, the remainder flag `residue`
and the cursor `index`. Device and model name only affect tensor assembly,
not which records each batch holds, and are omitted. -/
structure IterState (α : Type) where
  batches : List α
  batch_size : Nat
  n_batches : Nat
  residue : Bool
  index : Nat
deriving DecidableEq

namespace DatasetIterater

/-- `DatasetIterater.__init__`: `n_batches = len(batches) // batch_size`, then
`residue = (len(batches) % n_batches != 0)`. Both `//` and `%` raise
`ZeroDivisionError` on a zero right operand, so construction fails when
`batch_size` is 0 and when `n_batches` is 0 (batch size above dataset size). -/
def init {α : Type} (batches : List α) (batch_size : Nat) :
    Except String (IterState α) :=
  if batch_size = 0 then Except.error ("ZeroDivisionError")
  else
    let n_batches := batches.length / batch_size
    if n_batches = 0 then Except.error ("ZeroDivisionError")
    else Except.ok
      { batches := batches, batch_size := batch_size, n_batches := n_batches,
        residue := decide (batches.length % n_batches ≠ 0), index := 0 }

end DatasetIterater

namespace IterState

/-- `DatasetIterater.__next__`: with `residue` set and the cursor at
`n_batches`, yield the tail slice `batches[index*batch_size:]`; with the
cursor strictly past `n_batches`, reset the cursor and raise StopIteration
(`none`); otherwise yield `batches[index*batch_size:(index+1)*batch_size]`.
Yields the records of the batch (`_to_tensor` only repackages them). -/
def next {α : Type} (s : IterState α) : Option (List α) × IterState α :=
  if s.residue = true ∧ s.index = s.n_batches then
    (some (s.batches.drop (s.index * s.batch_size)), { s with index := s.index + 1 })
  else if s.n_batches < s.index then
    (none, { s with index := 0 })
  else
    (some ((s.batches.drop (s.index * s.batch_size)).take s.batch_size),
     { s with index := s.index + 1 })

/-- Repeatedly call `next`, collecting yielded batches until StopIteration or
the fuel runs out; also returns the final state. -/
def runFrom {α : Type} : IterState α → Nat → List (List α) × IterState α
  | s, 0 => ([], s)
  | s, fuel + 1 =>
    match s.next with
    | (none, s1) => ([], s1)
    | (some b, s1) =>
      let r := s1.runFrom fuel
      (b :: r.1, r.2)

/-- All batches yielded by one full `for`-loop pass over the iterator
(`n_batches + 2` calls always reach StopIteration from any reachable cursor). -/
def epoch {α : Type} (s : IterState α) : List (List α) :=
  (s.runFrom (s.n_batches + 2)).1

/-- `DatasetIterater.__len__`: `n_batches + 1` when `residue` else `n_batches`. -/
def iterLen {α : Type} (s : IterState α) : Nat :=
  if s.residue then s.n_batches + 1 else s.n_batches

end IterState

/-- The word-level tokenizer of `build_dataset`: split on the space character. -/
def wordTokenizer (x : String) : List String := pySplit x ' ' 

/-- The char-level tokenizer of `build_dataset`: one token per character. -/
def charTokenizer (x : String) : List String := x.data.map (fun c => String.mk [c])

/-- C10: for every integer sequence, position `pos ≥ 0` in bounds and positive
bucket count, `biGramHash` returns `(t1 * 14918087) % buckets` with
`t1 = seq[pos-1]` when `pos-1 ≥ 0` and 0 otherwise, and `triGramHash` returns
`(t2 * 14918087 * 18408749 + t1 * 14918087) % buckets` with `t2 = seq[pos-2]`
when `pos-2 ≥ 0` and 0 otherwise; in particular
`biGramHash [5,0,0,0] 0 100 = 0`. -/
theorem claim_C10 (seq : List Int) (pos : Int) (buckets : Int)
    (hpos : 0 ≤ pos) (hlt : pos - 1 < (seq.length : Int)) (hb : 0 < buckets) :
    biGramHash seq pos buckets
      = some ((if 1 ≤ pos then seq.getD (pos - 1).toNat 0 else 0) * 14918087 % buckets) ∧
    triGramHash seq pos buckets
      = some (((if 2 ≤ pos then seq.getD (pos - 2).toNat 0 else 0) * 14918087 * 18408749
          + (if 1 ≤ pos then seq.getD (pos - 1).toNat 0 else 0) * 14918087) % buckets) ∧
    biGramHash ([5, 0, 0, 0] : List Int) 0 100 = some 0 := by
  refine ⟨?_, ?_, by decide⟩
  · rcases (by omega : pos = 0 ∨ 1 ≤ pos) with h | h
    · subst h
      simp [biGramHash]
    · have e1 : (pos - 1).toNat = pos.toNat - 1 := by omega
      have hb1 : pos.toNat - 1 < seq.length := by omega
      have h01 : (0 : Int) ≤ pos - 1 := by omega
      simp [biGramHash, if_pos h01, if_pos h, e1, List.getElem?_eq_getElem hb1,
        List.getD_eq_getElem?_getD]
  · rcases (by omega : pos = 0 ∨ pos = 1 ∨ 2 ≤ pos) with h | h | h
    · subst h
      simp [triGramHash]
    · subst h
      have hb1 : (0 : Nat) < seq.length := by omega
      simp [triGramHash, List.getElem?_eq_getElem hb1, List.getD_eq_getElem?_getD]
    · have e1 : (pos - 1).toNat = pos.toNat - 1 := by omega
      have e2 : (pos - 2).toNat = pos.toNat - 2 := by omega
      have hb1 : pos.toNat - 1 < seq.length := by omega
      have hb2 : pos.toNat - 2 < seq.length := by omega
      have h01 : (0 : Int) ≤ pos - 1 := by omega
      have h02 : (0 : Int) ≤ pos - 2 := by omega
      have h1 : 1 ≤ pos := by omega
      simp [triGramHash, if_pos h01, if_pos h02, if_pos h, if_pos h1, e1, e2,
        List.getElem?_eq_getElem hb1, List.getElem?_eq_getElem hb2,
        List.getD_eq_getElem?_getD]

/-- Witness for C10 at `seq = [5, 7]`, `pos = 2`, `buckets = 100`. -/
theorem claim_C10_witness :
    biGramHash ([5, 7] : List Int) 2 100
      = some ((if (1 : Int) ≤ 2 then ([5, 7] : List Int).getD ((2 : Int) - 1).toNat 0 else 0)
          * 14918087 % 100) ∧
    triGramHash ([5, 7] : List Int) 2 100
      = some (((if (2 : Int) ≤ 2 then ([5, 7] : List Int).getD ((2 : Int) - 2).toNat 0 else 0)
            * 14918087 * 18408749
          + (if (1 : Int) ≤ 2 then ([5, 7] : List Int).getD ((2 : Int) - 1).toNat 0 else 0)
            * 14918087) % 100) ∧
    biGramHash ([5, 0, 0, 0] : List Int) 0 100 = some 0 :=
  claim_C10 [5, 7] 2 100 (by norm_num) (by norm_num) (by norm_num)

/-- C7: for every record of the generic line encoder with pad size `P > 0`,
the encoded id-sequence length is exactly `P`, the recorded true length is at
most `P`, and it equals `P` whenever the token count was `P` or more. -/
theorem claim_C7 (v : Vocab) (P : Nat) (toks : List String) (hP : 0 < P) :
    (encodeTokens v P toks).1.length = P ∧
    (encodeTokens v P toks).2 ≤ P ∧
    (P ≤ toks.length → (encodeTokens v P toks).2 = P) := by
  have hP0 : P ≠ 0 := by omega
  unfold encodeTokens
  by_cases h : toks.length < P
  · simp only [if_pos hP0, if_pos h]
    simp [List.length_append, List.length_replicate]
    omega
  · simp only [if_pos hP0, if_neg h]
    simp [List.length_take]
    omega

/-- Witness for C7 with an empty vocabulary, `P = 3` and one token. -/
theorem claim_C7_witness :
    (encodeTokens [] 3 ["a"]).1.length = 3 ∧
    (encodeTokens [] 3 ["a"]).2 ≤ 3 ∧
    (3 ≤ (["a"] : List String).length → (encodeTokens [] 3 ["a"]).2 = 3) :=
  claim_C7 [] 3 ["a"] (by norm_num)

/-- C8: for every record of the sub-word encoder with pad size `P > 0`, when
`convert_tokens_to_ids` returns one id per token, the mask length and the
id-sequence length both equal `P`, the mask sum equals the true length clamped
to `P`, and the true length is the token count with the CLS marker prepended,
never clamped (so it can exceed `P` on truncation). -/
theorem claim_C8 (convert : List String → List Nat) (P : Nat) (toks : List String)
    (lab : Int) (hP : 0 < P)
    (hc : (convert (CLS :: toks)).length = toks.length + 1) :
    (bertEncodeLine convert P toks lab).mask.length = P ∧
    (bertEncodeLine convert P toks lab).token_ids.length = P ∧
    (bertEncodeLine convert P toks lab).mask.sum
      = min (bertEncodeLine convert P toks lab).seq_len P ∧
    (bertEncodeLine convert P toks lab).seq_len = toks.length + 1 := by
  have hP0 : P ≠ 0 := by omega
  unfold bertEncodeLine
  by_cases h : (CLS :: toks).length < P
  · simp only [if_pos hP0, if_pos h]
    simp only [List.length_cons] at h
    simp [List.length_append, List.length_replicate, hc, List.sum_append,
      List.sum_replicate, smul_eq_mul]
    omega
  · simp only [if_pos hP0, if_neg h]
    simp only [List.length_cons] at h
    simp [List.length_take, hc, List.sum_replicate, smul_eq_mul]
    omega

/-- Witness for C8 with a constant-id converter, `P = 2` and two tokens. -/
theorem claim_C8_witness :
    (bertEncodeLine (fun l => l.map (fun _ => 0)) 2 ["x", "y"] 1).mask.length = 2 ∧
    (bertEncodeLine (fun l => l.map (fun _ => 0)) 2 ["x", "y"] 1).token_ids.length = 2 ∧
    (bertEncodeLine (fun l => l.map (fun _ => 0)) 2 ["x", "y"] 1).mask.sum
      = min (bertEncodeLine (fun l => l.map (fun _ => 0)) 2 ["x", "y"] 1).seq_len 2 ∧
    (bertEncodeLine (fun l => l.map (fun _ => 0)) 2 ["x", "y"] 1).seq_len
      = (["x", "y"] : List String).length + 1 :=
  claim_C8 (fun l => l.map (fun _ => 0)) 2 ["x", "y"] 1 (by norm_num) (by simp)

/-- C4 counterexample: constructing the iterator over a 1-record dataset with
batch size 2 (full-batch count 0) raises `ZeroDivisionError` in the remainder
check, so the degenerate case is not special-cased as the claim states. -/
theorem counterexample_C4 :
    DatasetIterater.init ([0] : List Nat) 2 = Except.error ("ZeroDivisionError") := rfl

/-- C4 amended: constructing the batch iterator with a batch size greater than
the dataset size (full-batch count 0) always raises the division fault; no
special case treats the dataset as a sole remainder batch. -/
theorem claim_C4 {α : Type} (batches : List α) (batch_size : Nat)
    (h : batches.length < batch_size) :
    DatasetIterater.init batches batch_size = Except.error ("ZeroDivisionError") := by
  have hb : batch_size ≠ 0 := by omega
  have hq : batches.length / batch_size = 0 := Nat.div_eq_of_lt h
  unfold DatasetIterater.init
  simp [hb, hq]

/-- Witness for C4 at a 1-record dataset with batch size 3. -/
theorem claim_C4_witness :
    DatasetIterater.init ([0] : List Nat) 3 = Except.error ("ZeroDivisionError") :=
  claim_C4 [0] 3 (by norm_num)

/-- C5 counterexample: dataset [10, 11], batch size 1 (no remainder). After the
two full batches the cursor is 2, the full-batch count; the next call does not
signal exhaustion but yields the empty batch `some []`, contradicting the
claim that it stops and resets there. -/
theorem counterexample_C5 :
    (DatasetIterater.init ([10, 11] : List Nat) 1).map
        (fun s => (((s.runFrom 2).2.index, (s.runFrom 2).2.next.1)))
      = Except.ok (2, some ([] : List Nat)) := rfl

/-- C5 amended: for a dataset whose size is an exact multiple of the batch
size, when the cursor equals the full-batch count the next call yields one
empty batch and advances the cursor; the call after that signals exhaustion
(`none`) and resets the cursor to 0, so a later pass replays the epoch. -/
theorem claim_C5 {α : Type} (s : IterState α) (hres : s.residue = false)
    (hidx : s.index = s.n_batches)
    (hlen : s.batches.length = s.n_batches * s.batch_size) :
    s.next.1 = some [] ∧
    s.next.2.next = (none, { s with index := 0 }) := by
  have hdrop : s.batches.drop (s.index * s.batch_size) = [] := by
    apply List.drop_eq_nil_of_le
    rw [hlen, hidx]
  have h1 : s.next = (some [], { s with index := s.index + 1 }) := by
    unfold IterState.next
    rw [if_neg (by simp [hres]), if_neg (by omega), hdrop]
    simp
  refine ⟨by rw [h1], ?_⟩
  rw [h1]
  unfold IterState.next
  rw [if_neg (by simp [hres]), if_pos (by simp; omega)]

/-- Witness for C5 at the state reached after two batches of [7, 8] with
batch size 1. -/
theorem claim_C5_witness :
    (IterState.next (⟨[7, 8], 1, 2, false, 2⟩ : IterState Nat)).1 = some [] ∧
    (IterState.next (⟨[7, 8], 1, 2, false, 2⟩ : IterState Nat)).2.next
      = (none, (⟨[7, 8], 1, 2, false, 0⟩ : IterState Nat)) :=
  claim_C5 ⟨[7, 8], 1, 2, false, 2⟩ rfl rfl rfl

/-- C2 evaluation at the failing input: vocabulary
`{c: 0, a: 1, <UNK>: 2, <PAD>: 3}`, pad size 4, tokens `[c, a]`. The two
padded positions hold `some 2`, the unknown-token id, not the padding id 3:
line 80 of the source extends the token list with `vocab.get(PAD)` (an
integer), whose later dict lookup misses and falls back to the UNK id. -/
theorem claim_C2_eval :
    (encodeTokens [("c", 0), ("a", 1), ("<UNK>", 2), ("<PAD>", 3)] 4 ["c", "a"]).1
      = [some 0, some 1, some 2, some 2] ∧
    dictGet [("c", 0), ("a", 1), ("<UNK>", 2), ("<PAD>", 3)] UNK = some 2 ∧
    dictGet [("c", 0), ("a", 1), ("<UNK>", 2), ("<PAD>", 3)] PAD = some 3 := by
  decide

/-- C3 evaluation at the failing input: 10 records, batch size 4. The residue
flag tests `10 % n_batches = 10 % 2 = 0` instead of `10 % 4`, so `__len__`
reports 2, while iterating actually yields 3 batches of sizes 4, 4 and 2 —
the claimed length `floor(10/4) + 1 = 3` is not what `__len__` returns. -/
theorem claim_C3_eval :
    (DatasetIterater.init (List.range 10) 4).map
        (fun s => (s.iterLen, s.epoch.map List.length))
      = Except.ok (2, [4, 4, 2]) ∧
    (List.range 10).length / 4 + 1 = 3 :=
  ⟨rfl, rfl⟩


/-- Step lemma: with `residue` set and the cursor at `n_batches`, `__next__`
yields the tail slice and advances the cursor. -/
theorem next_yield_residue {α : Type} (s : IterState α) (h1 : s.residue = true)
    (h2 : s.index = s.n_batches) :
    s.next = (some (s.batches.drop (s.index * s.batch_size)),
      { s with index := s.index + 1 }) := by
  unfold IterState.next
  rw [if_pos ⟨h1, h2⟩]

/-- Step lemma: away from the residue case, a cursor not past `n_batches`
yields the clipped slice and advances the cursor. -/
theorem next_yield_take {α : Type} (s : IterState α)
    (hne : ¬(s.residue = true ∧ s.index = s.n_batches))
    (hle : ¬(s.n_batches < s.index)) :
    s.next = (some ((s.batches.drop (s.index * s.batch_size)).take s.batch_size),
      { s with index := s.index + 1 }) := by
  unfold IterState.next
  rw [if_neg hne, if_neg hle]

/-- Step lemma: a cursor strictly past `n_batches` raises StopIteration and
resets the cursor. -/
theorem next_stop {α : Type} (s : IterState α) (hgt : s.n_batches < s.index) :
    s.next = (none, { s with index := 0 }) := by
  unfold IterState.next
  rw [if_neg (fun hc => absurd hc.2 (by omega)), if_pos hgt]

/-- Running the iterator from cursor `i ≤ n_batches + 1` with enough fuel
yields exactly the slices at indices `i .. n_batches` (the one at `n_batches`
being the remainder, whether or not `residue` is set) and leaves the cursor
reset to 0. -/
theorem runFrom_batches {α : Type} (batches : List α) (b k : Nat) (res : Bool)
    (hk : k * b ≤ batches.length) (hn : batches.length < k * b + b) :
    ∀ (fuel i : Nat), i ≤ k + 1 → k + 2 - i ≤ fuel →
      ((IterState.mk batches b k res i).runFrom fuel).1
          = (List.range' i (k + 1 - i)).map (fun j => (batches.drop (j * b)).take b)
        ∧ ((IterState.mk batches b k res i).runFrom fuel).2
          = IterState.mk batches b k res 0 := by
  intro fuel
  induction fuel with
  | zero => intro i hi hf; omega
  | succ fuel ihf =>
    intro i hi hf
    rcases Nat.lt_or_ge k i with hgt | hle
    · have hs : (IterState.mk batches b k res i).next
          = (none, IterState.mk batches b k res 0) :=
        next_stop _ hgt
      simp only [IterState.runFrom, hs]
      have h0 : k + 1 - i = 0 := by omega
      rw [h0]
      exact ⟨by simp, by simp⟩
    · by_cases hres : res = true ∧ i = k
      · have hs : (IterState.mk batches b k res i).next
            = (some (batches.drop (i * b)), IterState.mk batches b k res (i + 1)) :=
          next_yield_residue _ hres.1 hres.2
        simp only [IterState.runFrom, hs]
        obtain ⟨ih1, ih2⟩ := ihf (i + 1) (by omega) (by omega)
        refine ⟨?_, ih2⟩
        rw [ih1]
        have h1 : k + 1 - (i + 1) = 0 := by omega
        have h2 : k + 1 - i = 1 := by omega
        rw [h1, h2]
        simp only [List.range', List.map_cons, List.map_nil]
        have hib : i * b = k * b := by rw [hres.2]
        rw [List.take_of_length_le]
        rw [List.length_drop]
        omega
      · have hs : (IterState.mk batches b k res i).next
            = (some ((batches.drop (i * b)).take b),
               IterState.mk batches b k res (i + 1)) :=
          next_yield_take _ (fun hc => hres ⟨hc.1, hc.2⟩) (by show ¬(k < i); omega)
        simp only [IterState.runFrom, hs]
        obtain ⟨ih1, ih2⟩ := ihf (i + 1) (by omega) (by omega)
        refine ⟨?_, ih2⟩
        rw [ih1]
        have h2 : k + 1 - i = (k + 1 - (i + 1)) + 1 := by omega
        rw [h2, List.range'_succ]
        simp

/-- Successful construction pins down every field of the iterator state and
forces a positive batch size and a positive full-batch count. -/
theorem init_state {α : Type} (batches : List α) (bs : Nat) (s : IterState α)
    (h : DatasetIterater.init batches bs = Except.ok s) :
    s = IterState.mk batches bs (batches.length / bs)
          (decide (batches.length % (batches.length / bs) ≠ 0)) 0
      ∧ 0 < bs ∧ 0 < batches.length / bs := by
  simp only [DatasetIterater.init] at h
  by_cases h0 : bs = 0
  · rw [if_pos h0] at h
    simp at h
  · rw [if_neg h0] at h
    by_cases h1 : batches.length / bs = 0
    · rw [if_pos h1] at h
      simp at h
    · rw [if_neg h1] at h
      simp only [Except.ok.injEq] at h
      exact ⟨h.symm, Nat.pos_of_ne_zero h0, Nat.pos_of_ne_zero h1⟩

/-- Sum of the clipped slice sizes `min b (n - t*b)` over `t = i .. k`. -/
theorem range'_min_sum (n b k : Nat) (hk : k * b ≤ n) (hn : n < k * b + b) :
    ∀ (j i : Nat), i + j = k + 1 →
      ((List.range' i j).map (fun t => min b (n - t * b))).sum = n - i * b := by
  intro j
  induction j with
  | zero =>
    intro i hij
    have hik : i = k + 1 := by omega
    subst hik
    simp only [List.range', List.map_nil, List.sum_nil]
    have h2 : (k + 1) * b = k * b + b := by ring
    omega
  | succ j ihj =>
    intro i hij
    rw [List.range'_succ]
    simp only [List.map_cons, List.sum_cons]
    rw [ihj (i + 1) (by omega)]
    have h1 : i * b ≤ k * b := Nat.mul_le_mul_right b (by omega)
    have h2 : (i + 1) * b = i * b + b := by ring
    rw [h2]
    omega

/-- One epoch over a well-formed iterator state at cursor 0 yields batches
whose record counts sum to the dataset size. -/
theorem epoch_sum {α : Type} (batches : List α) (b k : Nat) (res : Bool)
    (hk : k * b ≤ batches.length) (hn : batches.length < k * b + b) :
    (((IterState.mk batches b k res 0).epoch).map List.length).sum
      = batches.length := by
  show ((((IterState.mk batches b k res 0).runFrom (k + 2)).1).map List.length).sum
      = batches.length
  obtain ⟨h1, _⟩ := runFrom_batches batches b k res hk hn (k + 2) 0 (by omega) (by omega)
  rw [h1, List.map_map]
  rw [List.map_congr_left (g := fun t => min b (batches.length - t * b)) ?hpt]
  case hpt =>
    intro t ht
    simp [List.length_take, List.length_drop]
  have hs := range'_min_sum batches.length b k hk hn (k + 1) 0 (by omega)
  simpa using hs

/-- C1 counterexample: a 3-record dataset with batch size 5 — a combination
the claim covers — cannot even be iterated: construction raises
`ZeroDivisionError`, so no batches are yielded at all and their record counts
cannot sum to the dataset size 3. -/
theorem counterexample_C1 :
    DatasetIterater.init ([0, 1, 2] : List Nat) 5
      = Except.error ("ZeroDivisionError") := rfl

/-- C1 amended: for every dataset and positive batch size for which the
iterator can actually be constructed (batch size at most the dataset size),
the record counts of the yielded batches sum to exactly the dataset size,
including when the size is not evenly divisible by the batch size. -/
theorem claim_C1 {α : Type} (batches : List α) (batch_size : Nat) (s : IterState α)
    (h : DatasetIterater.init batches batch_size = Except.ok s) :
    ((s.epoch).map List.length).sum = batches.length := by
  obtain ⟨hs, hbs, hnb⟩ := init_state batches batch_size s h
  subst hs
  apply epoch_sum
  · exact Nat.div_mul_le_self _ _
  · have hmod := Nat.div_add_mod batches.length batch_size
    have hlt : batches.length % batch_size < batch_size := Nat.mod_lt _ hbs
    have hcomm : batch_size * (batches.length / batch_size)
        = (batches.length / batch_size) * batch_size := Nat.mul_comm _ _
    omega

/-- Witness for C1: 5 records with batch size 2 (one short final batch). -/
theorem claim_C1_witness :
    ((IterState.epoch (⟨[0, 1, 2, 3, 4], 2, 2, true, 0⟩ : IterState Nat)).map
        List.length).sum = ([0, 1, 2, 3, 4] : List Nat).length :=
  claim_C1 [0, 1, 2, 3, 4] 2 ⟨[0, 1, 2, 3, 4], 2, 2, true, 0⟩ rfl

/-- Everything after the first tab of `s` (empty when `s` has no tab), the
label field under the claimed split-at-first-tab reading. -/
def afterFirstTab (s : String) : String :=
  String.mk ((s.data.dropWhile (fun c => c != '\t')).drop 1)

/-- The malformed-line condition exactly as claim C9 states it: a non-blank
line whose stripped form, split at its first tab, has no tab separator or has
a label field that does not parse as an integer. -/
def specMalformedLine (line0 : String) : Bool :=
  let line := pyStrip line0
  (line != "") &&
    ((!(line.data.contains '\t')) || (pyInt (afterFirstTab line)).isNone)

/-- The malformed-line condition the code implements: a non-blank line whose
stripped form does not split into exactly two tab-separated fields, or whose
second field does not parse as an integer. -/
def codeMalformedLine (line0 : String) : Bool :=
  let line := pyStrip line0
  (line != "") &&
    (match pySplit line '\t' with
     | [_, lab] => (pyInt lab).isNone
     | _ => true)

/-- A line makes `parseLine` fail exactly when the code-level malformed-line
condition holds for it. -/
theorem parseLine_error_iff (tokenizer : String → List String) (v : Vocab)
    (P : Nat) (l : String) :
    (∃ e, parseLine tokenizer v P l = Except.error e)
      ↔ codeMalformedLine l = true := by
  simp only [parseLine, codeMalformedLine]
  by_cases hb : pyStrip l = ""
  · simp [hb]
  · rw [if_neg hb]
    cases hsp : pySplit (pyStrip l) '\t' with
    | nil => simp [hb, hsp]
    | cons c rest =>
      cases rest with
      | nil => simp [hb, hsp]
      | cons lab rest2 =>
        cases rest2 with
        | nil =>
          cases hpi : pyInt lab with
          | some z => simp [hb, hsp, hpi]
          | none => simp [hb, hsp, hpi]
        | cons x rest3 => simp [hb, hsp]

/-- `parseLine` skips a line (returns `ok none`) exactly when the stripped
line is blank. -/
theorem parseLine_ok_none_iff (tokenizer : String → List String) (v : Vocab)
    (P : Nat) (l : String) :
    parseLine tokenizer v P l = Except.ok none ↔ pyStrip l = "" := by
  simp only [parseLine]
  by_cases hb : pyStrip l = ""
  · simp [hb]
  · rw [if_neg hb]
    cases hsp : pySplit (pyStrip l) '\t' with
    | nil => simp [hb]
    | cons c rest =>
      cases rest with
      | nil => simp [hb]
      | cons lab rest2 =>
        cases rest2 with
        | nil =>
          cases hpi : pyInt lab with
          | some z => simp [hb, hpi]
          | none => simp [hb, hpi]
        | cons x rest3 => simp [hb]

/-- C9 counterexample: the line with two tabs `a<TAB><TAB>1` is a fatal parse
error for the code (the two-variable unpack of `line.split` fails on three
fields), yet under the claimed characterization it is not malformed: it has a
tab, and its label field after the first tab, `<TAB>1`, parses as the
integer 1 (Python `int` strips whitespace). -/
theorem counterexample_C9 :
    load_dataset charTokenizer [] 4 ["a\t\t1"]
      = Except.error ("ValueError: unpack") ∧
    specMalformedLine ("a\t\t1") = false :=
  ⟨rfl, rfl⟩

/-- C9 amended: encoding raises a fatal parse error if and only if some line,
once stripped, is non-blank and either does not split into exactly two
tab-separated fields or has a label field that does not parse as an integer;
no line is silently skipped (every non-blank line of a successful pass yields
a record) and an out-of-vocabulary token is not an error: it is mapped to the
unknown-token entry `vocab.get(UNK)`. -/
theorem claim_C9 (tokenizer : String → List String) (v : Vocab) (P : Nat)
    (lines : List String) :
    ((∃ e, load_dataset tokenizer v P lines = Except.error e)
        ↔ ∃ l ∈ lines, codeMalformedLine l = true) ∧
    (∀ rs, load_dataset tokenizer v P lines = Except.ok rs →
        rs.length = (lines.filter (fun l => pyStrip l != "")).length) ∧
    (∀ w, dictGet v w = none → tokLookup v (Tok.str w) = dictGet v UNK) := by
  refine ⟨?_, ?_, ?_⟩
  · induction lines with
    | nil => simp [load_dataset]
    | cons l ls ih =>
      simp only [load_dataset]
      cases hp : parseLine tokenizer v P l with
      | error e =>
        constructor
        · intro _
          exact ⟨l, List.mem_cons_self l ls,
            (parseLine_error_iff tokenizer v P l).mp ⟨e, hp⟩⟩
        · intro _
          exact ⟨e, rfl⟩
      | ok o =>
        have hml : codeMalformedLine l = false := by
          cases hcm : codeMalformedLine l with
          | false => rfl
          | true =>
            obtain ⟨e, he⟩ := (parseLine_error_iff tokenizer v P l).mpr hcm
            rw [hp] at he
            cases he
        cases o with
        | none =>
          rw [ih]
          constructor
          · rintro ⟨x, hx, hm⟩
            exact ⟨x, List.mem_cons_of_mem l hx, hm⟩
          · rintro ⟨x, hx, hm⟩
            rcases List.mem_cons.mp hx with rfl | hx2
            · rw [hml] at hm
              cases hm
            · exact ⟨x, hx2, hm⟩
        | some r =>
          have hmap : ∀ e, ((load_dataset tokenizer v P ls).map (fun rs => r :: rs)
              = Except.error e) ↔ load_dataset tokenizer v P ls = Except.error e := by
            intro e
            cases hld : load_dataset tokenizer v P ls <;> simp [Except.map]
          simp only [hmap]
          rw [ih]
          constructor
          · rintro ⟨x, hx, hm⟩
            exact ⟨x, List.mem_cons_of_mem l hx, hm⟩
          · rintro ⟨x, hx, hm⟩
            rcases List.mem_cons.mp hx with rfl | hx2
            · rw [hml] at hm
              cases hm
            · exact ⟨x, hx2, hm⟩
  · induction lines with
    | nil =>
      intro rs h
      simp [load_dataset] at h
      simp [h.symm]
    | cons l ls ih =>
      intro rs h
      simp only [load_dataset] at h
      cases hp : parseLine tokenizer v P l with
      | error e =>
        rw [hp] at h
        cases h
      | ok o =>
        cases o with
        | none =>
          rw [hp] at h
          have hbl : pyStrip l = "" := (parseLine_ok_none_iff tokenizer v P l).mp hp
          rw [List.filter_cons]
          have hcond : (pyStrip l != "") = false := by simp [hbl]
          simp only [hcond, Bool.false_eq_true, if_false]
          exact ih rs h
        | some r =>
          rw [hp] at h
          cases hld : load_dataset tokenizer v P ls with
          | error e =>
            rw [hld] at h
            simp [Except.map] at h
          | ok rs2 =>
            rw [hld] at h
            simp only [Except.map, Except.ok.injEq] at h
            have hbl : pyStrip l ≠ "" := by
              intro hb
              have hnone : parseLine tokenizer v P l = Except.ok none :=
                (parseLine_ok_none_iff tokenizer v P l).mpr hb
              rw [hp] at hnone
              cases hnone
            rw [List.filter_cons, if_pos (by simp [hbl])]
            rw [h.symm]
            simp only [List.length_cons]
            rw [ih rs2 hld]
  · intro w hw
    simp [tokLookup, hw]

/-- Witness for C9: the error-characterization instantiated at a concrete
well-tabbed line with a non-integer label. -/
theorem claim_C9_witness :
    (∃ e, load_dataset charTokenizer [] 4 ["a\tx"] = Except.error e)
      ↔ ∃ l ∈ (["a\tx"] : List String), codeMalformedLine l = true :=
  (claim_C9 charTokenizer [] 4 ["a\tx"]).1

/-- A key of `bumpCount d w` is a key of `d` or the counted word itself. -/
theorem keys_bumpCount (d : Vocab) (w x : String)
    (hx : x ∈ (bumpCount d w).map Prod.fst) : x ∈ d.map Prod.fst ∨ x = w := by
  unfold bumpCount at hx
  by_cases h : dictHas d w
  · rw [if_pos h] at hx
    left
    rw [List.map_map] at hx
    rwa [List.map_congr_left (g := Prod.fst) ?hfst] at hx
    case hfst =>
      intro p hp
      by_cases hc : p.1 = w <;> simp [hc]
  · rw [if_neg h, List.map_append] at hx
    rcases List.mem_append.mp hx with h1 | h2
    · exact Or.inl h1
    · right
      simpa using h2

/-- A key of the token-counting fold is a key of the initial dict or one of
the folded tokens. -/
theorem keys_foldl_bump (ws : List String) : ∀ (d : Vocab) (x : String),
    x ∈ (ws.foldl bumpCount d).map Prod.fst → x ∈ d.map Prod.fst ∨ x ∈ ws := by
  induction ws with
  | nil =>
    intro d x hx
    exact Or.inl hx
  | cons w ws ih =>
    intro d x hx
    rw [List.foldl_cons] at hx
    rcases ih (bumpCount d w) x hx with h1 | h2
    · rcases keys_bumpCount d w x h1 with h3 | h4
      · exact Or.inl h3
      · exact Or.inr (by simp [h4])
    · exact Or.inr (List.mem_cons_of_mem w h2)

/-- Every key of the corpus count dict is a token of some non-blank line. -/
theorem keys_countCorpus (lines : List String) (tok : String → List String)
    (x : String) (hx : x ∈ (countCorpus lines tok).map Prod.fst) :
    ∃ l ∈ lines, pyStrip l ≠ "" ∧ x ∈ tok (firstField (pyStrip l)) := by
  have main : ∀ (ls : List String) (d : Vocab),
      x ∈ (ls.foldl
          (fun d line0 =>
            let line := pyStrip line0
            if line = "" then d
            else (tok (firstField line)).foldl bumpCount d) d).map Prod.fst →
      x ∈ d.map Prod.fst
        ∨ ∃ l ∈ ls, pyStrip l ≠ "" ∧ x ∈ tok (firstField (pyStrip l)) := by
    intro ls
    induction ls with
    | nil =>
      intro d hx2
      exact Or.inl hx2
    | cons l ls ih =>
      intro d hx2
      rw [List.foldl_cons] at hx2
      by_cases hb : pyStrip l = ""
      · simp only [hb, if_pos rfl] at hx2
        rcases ih d hx2 with h1 | h2
        · exact Or.inl h1
        · obtain ⟨l2, hl2, h3, h4⟩ := h2
          exact Or.inr ⟨l2, List.mem_cons_of_mem l hl2, h3, h4⟩
      · simp only [if_neg hb] at hx2
        rcases ih _ hx2 with h1 | h2
        · rcases keys_foldl_bump _ d x h1 with h3 | h4
          · exact Or.inl h3
          · exact Or.inr ⟨l, by simp, hb, h4⟩
        · obtain ⟨l2, hl2, h3, h4⟩ := h2
          exact Or.inr ⟨l2, List.mem_cons_of_mem l hl2, h3, h4⟩
  have hx2 : x ∈ (countCorpus lines tok).map Prod.fst := hx
  rw [countCorpus] at hx2
  rcases main lines [] hx2 with h1 | h2
  · simp at h1
  · exact h2

/-- Membership travels backwards through `insertByCount`. -/
theorem mem_insertByCount (p q : String × Nat) (l : List (String × Nat))
    (h : q ∈ insertByCount p l) : q = p ∨ q ∈ l := by
  induction l with
  | nil => simpa [insertByCount] using h
  | cons r rest ih =>
    unfold insertByCount at h
    by_cases hc : r.2 ≤ p.2
    · rw [if_pos hc] at h
      rcases List.mem_cons.mp h with h1 | h2
      · exact Or.inl h1
      · exact Or.inr h2
    · rw [if_neg hc] at h
      rcases List.mem_cons.mp h with h1 | h2
      · exact Or.inr (by simp [h1])
      · rcases ih h2 with h3 | h4
        · exact Or.inl h3
        · exact Or.inr (List.mem_cons_of_mem r h4)

/-- Membership travels backwards through the stable descending sort. -/
theorem mem_sortByCountDesc (q : String × Nat) (l : List (String × Nat))
    (h : q ∈ sortByCountDesc l) : q ∈ l := by
  induction l with
  | nil => simpa [sortByCountDesc] using h
  | cons p rest ih =>
    unfold sortByCountDesc at h
    rcases mem_insertByCount p q _ h with h1 | h2
    · simp [h1]
    · exact List.mem_cons_of_mem p (ih h2)

/-- Every key of `vocab_list` is a token of some non-blank corpus line. -/
theorem mem_keys_vocabList (lines : List String) (tok : String → List String)
    (max_size min_freq : Nat) (x : String)
    (hx : x ∈ (vocabList lines tok max_size min_freq).map Prod.fst) :
    ∃ l ∈ lines, pyStrip l ≠ "" ∧ x ∈ tok (firstField (pyStrip l)) := by
  apply keys_countCorpus lines tok x
  obtain ⟨p, hp, hpx⟩ := List.mem_map.mp hx
  rw [← hpx]
  apply List.mem_map_of_mem Prod.fst
  exact List.mem_of_mem_filter
    (mem_sortByCountDesc p _ (List.mem_of_mem_take hp))

/-- The id dict keeps the words of `vocab_list` as keys, in order. -/
theorem enumDict_keys (l : Vocab) :
    (enumDict l).map Prod.fst = l.map Prod.fst := by
  unfold enumDict
  calc (l.enum.map (fun ip => (ip.2.1, ip.1))).map Prod.fst
      = (l.enum.map Prod.snd).map Prod.fst := by
        rw [List.map_map, List.map_map]
        rfl
    _ = l.map Prod.fst := by rw [List.enum_map_snd]

/-- The id dict assigns exactly the ids `0 .. length - 1`, in order. -/
theorem enumDict_values (l : Vocab) :
    (enumDict l).map Prod.snd = List.range l.length := by
  unfold enumDict
  calc (l.enum.map (fun ip => (ip.2.1, ip.1))).map Prod.snd
      = l.enum.map Prod.fst := by
        rw [List.map_map]
        rfl
    _ = List.range l.length := List.enum_map_fst l

/-- The id dict has one entry per `vocab_list` entry. -/
theorem enumDict_length (l : Vocab) : (enumDict l).length = l.length := by
  simp [enumDict, List.enum_length]

/-- Absent keys make `dictHas` false. -/
theorem dictHas_false_iff (d : Vocab) (k : String) :
    dictHas d k = false ↔ k ∉ d.map Prod.fst := by
  unfold dictHas
  rw [← Bool.not_eq_true, List.any_eq_true]
  constructor
  · intro h hk
    obtain ⟨p, hp, hpk⟩ := List.mem_map.mp hk
    exact h ⟨p, hp, by simp [hpk]⟩
  · rintro h ⟨p, hp, hpk⟩
    simp only [decide_eq_true_eq] at hpk
    exact h (List.mem_map.mpr ⟨p, hp, hpk⟩)

/-- Setting an absent key appends the new entry. -/
theorem dictSet_absent (d : Vocab) (k : String) (v : Nat)
    (h : dictHas d k = false) : dictSet d k v = d ++ [(k, v)] := by
  unfold dictSet
  rw [if_neg (by simp [h])]

/-- `find?` misses a dict whose keys avoid `k`. -/
theorem find?_none_of_not_mem (d : Vocab) (k : String)
    (hk : k ∉ d.map Prod.fst) :
    d.find? (fun p => p.1 = k) = none := by
  rw [List.find?_eq_none]
  intro p hp
  simp only [decide_eq_true_eq]
  intro hpk
  exact hk (List.mem_map.mpr ⟨p, hp, hpk⟩)

/-- C6 counterexample: the one-line corpus `<UNK>` with the word tokenizer
puts the unknown marker into `vocab_list`, so the final update overwrites its
entry in place: the built vocabulary is `{<UNK>: 1, <PAD>: 2}` — its ids are
neither contiguous from 0 nor is the unknown id equal to size − 2. -/
theorem counterexample_C6 :
    build_vocab ["<UNK>"] wordTokenizer 10 1 = [("<UNK>", 1), ("<PAD>", 2)] ∧
    (build_vocab ["<UNK>"] wordTokenizer 10 1).map Prod.snd
      ≠ List.range (build_vocab ["<UNK>"] wordTokenizer 10 1).length ∧
    dictGet (build_vocab ["<UNK>"] wordTokenizer 10 1) UNK
      ≠ some ((build_vocab ["<UNK>"] wordTokenizer 10 1).length - 2) := by
  refine ⟨by decide, by decide, by decide⟩

/-- C6 amended: for every corpus none of whose tokenized non-blank lines
contains the literal unknown or padding marker, the built vocabulary has
unique contiguous ids `0 .. size-1`, size at most `max_size + 2`, exactly one
entry each for the unknown and padding markers, and those two entries hold the
two largest ids (`size - 2` and `size - 1`). -/
theorem claim_C6 (lines : List String) (tok : String → List String)
    (max_size min_freq : Nat)
    (hU : ∀ l ∈ lines, pyStrip l ≠ "" → UNK ∉ tok (firstField (pyStrip l)))
    (hP : ∀ l ∈ lines, pyStrip l ≠ "" → PAD ∉ tok (firstField (pyStrip l))) :
    (build_vocab lines tok max_size min_freq).map Prod.snd
        = List.range (build_vocab lines tok max_size min_freq).length ∧
    (build_vocab lines tok max_size min_freq).length ≤ max_size + 2 ∧
    (build_vocab lines tok max_size min_freq).countP (fun p => p.1 = UNK) = 1 ∧
    (build_vocab lines tok max_size min_freq).countP (fun p => p.1 = PAD) = 1 ∧
    dictGet (build_vocab lines tok max_size min_freq) UNK
      = some ((build_vocab lines tok max_size min_freq).length - 2) ∧
    dictGet (build_vocab lines tok max_size min_freq) PAD
      = some ((build_vocab lines tok max_size min_freq).length - 1) := by
  have hUL : UNK ∉ (enumDict (vocabList lines tok max_size min_freq)).map Prod.fst := by
    rw [enumDict_keys]
    intro hmem
    obtain ⟨l, hl, hne, hx⟩ := mem_keys_vocabList lines tok max_size min_freq UNK hmem
    exact hU l hl hne hx
  have hPL : PAD ∉ (enumDict (vocabList lines tok max_size min_freq)).map Prod.fst := by
    rw [enumDict_keys]
    intro hmem
    obtain ⟨l, hl, hne, hx⟩ := mem_keys_vocabList lines tok max_size min_freq PAD hmem
    exact hP l hl hne hx
  have hne : PAD ≠ UNK := by decide
  have hne2 : UNK ≠ PAD := by decide
  have heq : build_vocab lines tok max_size min_freq
      = enumDict (vocabList lines tok max_size min_freq)
        ++ [(UNK, (enumDict (vocabList lines tok max_size min_freq)).length),
            (PAD, (enumDict (vocabList lines tok max_size min_freq)).length + 1)] := by
    simp only [build_vocab]
    rw [dictSet_absent _ _ _ ((dictHas_false_iff _ _).mpr hUL)]
    rw [dictSet_absent _ _ _ ((dictHas_false_iff _ _).mpr ?habs)]
    case habs =>
      rw [List.map_append]
      intro hmem
      rcases List.mem_append.mp hmem with h1 | h2
      · exact hPL h1
      · simp at h2
        exact hne h2
    rw [List.append_assoc]
    rfl
  have hlen : (build_vocab lines tok max_size min_freq).length
      = (vocabList lines tok max_size min_freq).length + 2 := by
    rw [heq]
    simp [enumDict_length]
  have hms : (vocabList lines tok max_size min_freq).length ≤ max_size := by
    unfold vocabList
    exact List.length_take_le _ _
  refine ⟨?_, ?_, ?_, ?_, ?_, ?_⟩
  · rw [heq, List.map_append, enumDict_values]
    have h2 : (enumDict (vocabList lines tok max_size min_freq)
        ++ [(UNK, (enumDict (vocabList lines tok max_size min_freq)).length),
            (PAD, (enumDict (vocabList lines tok max_size min_freq)).length + 1)]).length
        = ((vocabList lines tok max_size min_freq).length + 1) + 1 := by
      simp [enumDict_length]
    rw [h2, List.range_succ, List.range_succ, List.append_assoc, enumDict_length]
    rfl
  · rw [hlen]
    omega
  · rw [heq, List.countP_append]
    have h0 : (enumDict (vocabList lines tok max_size min_freq)).countP
        (fun p => p.1 = UNK) = 0 := by
      rw [List.countP_eq_zero]
      intro p hp
      simp only [decide_eq_true_eq]
      intro hpk
      exact hUL (List.mem_map.mpr ⟨p, hp, hpk⟩)
    rw [h0]
    simp [List.countP_cons, hne]
  · rw [heq, List.countP_append]
    have h0 : (enumDict (vocabList lines tok max_size min_freq)).countP
        (fun p => p.1 = PAD) = 0 := by
      rw [List.countP_eq_zero]
      intro p hp
      simp only [decide_eq_true_eq]
      intro hpk
      exact hPL (List.mem_map.mpr ⟨p, hp, hpk⟩)
    rw [h0]
    simp [List.countP_cons, hne2]
  · rw [hlen, heq]
    unfold dictGet
    rw [List.find?_append, find?_none_of_not_mem _ _ hUL]
    rw [List.find?_cons_of_pos _ (by simp)]
    simp [enumDict_length]
  · rw [hlen, heq]
    unfold dictGet
    rw [List.find?_append, find?_none_of_not_mem _ _ hPL]
    rw [List.find?_cons_of_neg _ (by simp [hne2])]
    rw [List.find?_cons_of_pos _ (by simp)]
    simp [enumDict_length]

/-- Witness for C6: corpus `ab<TAB>0` with the char tokenizer yields
`{a: 0, b: 1, <UNK>: 2, <PAD>: 3}`, satisfying every clause. -/
theorem claim_C6_witness :
    (build_vocab ["ab\t0"] charTokenizer 10 1).map Prod.snd
        = List.range (build_vocab ["ab\t0"] charTokenizer 10 1).length ∧
    (build_vocab ["ab\t0"] charTokenizer 10 1).length ≤ 10 + 2 ∧
    (build_vocab ["ab\t0"] charTokenizer 10 1).countP (fun p => p.1 = UNK) = 1 ∧
    (build_vocab ["ab\t0"] charTokenizer 10 1).countP (fun p => p.1 = PAD) = 1 ∧
    dictGet (build_vocab ["ab\t0"] charTokenizer 10 1) UNK
      = some ((build_vocab ["ab\t0"] charTokenizer 10 1).length - 2) ∧
    dictGet (build_vocab ["ab\t0"] charTokenizer 10 1) PAD
      = some ((build_vocab ["ab\t0"] charTokenizer 10 1).length - 1) :=
  claim_C6 ["ab\t0"] charTokenizer 10 1 (by decide) (by decide)
